import Mathlib

/-!
Verification development for the nordselect server-selection library.

The definitions below are shallow embeddings of the Rust source:
  * `src/servers.rs`        — `Server`, `Servers` and their operations
  * `src/filters/mod.rs`    — `Filter` combinators (`CombinedFilter`,
                              `NegatingFilter`, `CategoryFilter`)
  * `src/filters/blacklist.rs` and `src/filters/list.rs`
                            — domain white/black list filters (two
                              coexisting generations in the repository)
  * `src/filters/load.rs` and `src/filters.rs`
                            — the two `LoadFilter` generations
  * `src/filters/protocol.rs` — `ProtocolFilter`
  * `src/filters/region.rs`   — `Region` and its lookup table
  * `src/sorters.rs`          — `LoadSorter` and `PingSorter`
  * `src/cli_help/parse_static_filter.rs` — token-to-filter table

A Rust `Filter` trait object is embedded as a plain predicate
`Server → Bool`; `HashSet<String>` as `List String` with membership;
`HashMap<String, usize>` as an association list `List (String × Nat)`
with first-match lookup and overwrite-on-insert, matching `HashMap`
observable behaviour.  A Rust panic (`.expect`) is embedded as `none`
of an `Option` result.
-/

/-- `ServerCategory` from `src/servers.rs`. -/
inductive ServerCategory where
  | Standard
  | P2P
  | Obfuscated
  | Dedicated
  | Tor
  | Double
  | UnknownServer
deriving DecidableEq, Repr

/-- `Features` from `src/servers.rs`, extended with `wireguard_udp` which the
`src/filters/protocol.rs` generation of the code reads. -/
structure Features where
  ikev2 : Bool
  openvpn_udp : Bool
  openvpn_tcp : Bool
  socks : Bool
  proxy : Bool
  pptp : Bool
  l2tp : Bool
  openvpn_xor_udp : Bool
  openvpn_xor_tcp : Bool
  proxy_cybersec : Bool
  proxy_ssl : Bool
  proxy_ssl_cybersec : Bool
  wireguard_udp : Bool
deriving DecidableEq, Repr

/-- `Server` from `src/servers.rs` (the deprecated `ping` field is not part of
any behaviour under verification and is omitted). -/
structure Server where
  flag : String
  domain : String
  load : Nat
  categories : List ServerCategory
  features : Features
deriving DecidableEq, Repr

/-- `Servers` from `src/servers.rs`: a list of individual servers. -/
structure Servers where
  servers : List Server
deriving DecidableEq, Repr

/-- `Protocol` from the `src/filters/protocol.rs` generation. -/
inductive Protocol where
  | Udp
  | Tcp
  | Pptp
  | L2tp
  | OpenVPNXTcp
  | OpenVPNXUdp
  | Socks
  | CyberSecProxy
  | SslProxy
  | CyberSecSslProxy
  | Proxy
  | WireGuardUdp
deriving DecidableEq, Repr

/-- `ProtocolFilter` (`src/filters/protocol.rs`). -/
structure ProtocolFilter where
  protocol : Protocol

/-- `ProtocolFilter::filter` (`src/filters/protocol.rs`, lines 30–47): the
feature flag consulted for each protocol variant, copied arm by arm. -/
def ProtocolFilter.filter (f : ProtocolFilter) (server : Server) : Bool :=
  match f.protocol with
  | .Tcp => server.features.openvpn_tcp
  | .Udp => server.features.openvpn_udp
  | .Pptp => server.features.pptp
  | .L2tp => server.features.l2tp
  | .OpenVPNXTcp => server.features.openvpn_tcp
  | .OpenVPNXUdp => server.features.openvpn_udp
  | .Socks => server.features.socks
  | .CyberSecProxy => server.features.proxy_cybersec
  | .SslProxy => server.features.proxy_ssl
  | .CyberSecSslProxy => server.features.proxy_ssl_cybersec
  | .Proxy => server.features.proxy
  | .WireGuardUdp => server.features.wireguard_udp

/-- `CategoryFilter` (`src/filters/mod.rs`). -/
structure CategoryFilter where
  category : ServerCategory

/-- `CategoryFilter::filter`: `server.categories.contains(&self.category)`. -/
def CategoryFilter.filter (f : CategoryFilter) (server : Server) : Bool :=
  server.categories.contains f.category

/-- `CombinedFilter` (`src/filters/mod.rs` lines 35–38 and `src/filters.rs`
lines 332–335; the two generations have identical bodies).  The boxed trait
objects are embedded as plain predicates. -/
structure CombinedFilter where
  filters : List (Server → Bool)

/-- `CombinedFilter::filter` (`src/filters/mod.rs` lines 70–79 and
`src/filters.rs` lines 367–376):
`self.filters.iter().filter(|f| f.filter(server)).next().is_some()`. -/
def CombinedFilter.filter (cf : CombinedFilter) (server : Server) : Bool :=
  ((cf.filters.filter (fun f => f server)).head?).isSome

/-- `NegatingFilter` (`src/filters/mod.rs` line 124). -/
structure NegatingFilter where
  inner : Server → Bool

/-- `NegatingFilter::filter` (`src/filters/mod.rs` lines 138–142):
`!self.0.filter(server)`. -/
def NegatingFilter.filter (f : NegatingFilter) (server : Server) : Bool :=
  !(f.inner server)

namespace FilterBlacklist

/-- `BlackListFilter` from `src/filters/blacklist.rs` (the generation marked
`TODO: implement`). -/
structure BlackListFilter where
  blacklist : List String

/-- `BlackListFilter::filter` (`src/filters/blacklist.rs` lines 12–16):
`self.blacklist.contains(&server.domain)` — note: no negation. -/
def BlackListFilter.filter (f : BlackListFilter) (server : Server) : Bool :=
  f.blacklist.contains server.domain

end FilterBlacklist

namespace FilterList

/-- `WhiteListFilter` from `src/filters/list.rs`. -/
structure WhiteListFilter where
  whitelist : List String

/-- `WhiteListFilter::filter` (`src/filters/list.rs` lines 72–76):
`self.whitelist.contains(&server.domain)`. -/
def WhiteListFilter.filter (f : WhiteListFilter) (server : Server) : Bool :=
  f.whitelist.contains server.domain

/-- `BlackListFilter` from `src/filters/list.rs`. -/
structure BlackListFilter where
  blacklist : List String

/-- `BlackListFilter::filter` (`src/filters/list.rs` lines 109–113):
`!self.blacklist.contains(&server.domain)`. -/
def BlackListFilter.filter (f : BlackListFilter) (server : Server) : Bool :=
  !(f.blacklist.contains server.domain)

end FilterList

/-- `LoadFilter` from `src/filters/load.rs`: a load range with exclusive
bounds. -/
structure LoadFilter where
  min_load : Nat
  max_load : Nat

/-- `LoadFilter::filter` (`src/filters/load.rs` lines 30–37):
`server.load.cmp(&min) == Greater && server.load.cmp(&max) == Less`. -/
def LoadFilter.filter (f : LoadFilter) (server : Server) : Bool :=
  (compare server.load f.min_load == Ordering.gt)
    && (compare server.load f.max_load == Ordering.lt)

namespace FiltersRs

/-- `LoadFilter` from the `src/filters.rs` generation: a single inclusive
upper bound. -/
structure LoadFilter where
  load : Nat

/-- `LoadFilter::filter` (`src/filters.rs` lines 320–325):
`server.load.cmp(&self.load) != Ordering::Greater`. -/
def LoadFilter.filter (f : LoadFilter) (server : Server) : Bool :=
  compare server.load f.load != Ordering.gt

end FiltersRs

/-- `Servers::filter` (`src/servers.rs` lines 294–296):
`self.servers.retain(|server| filter.filter(&server))`. -/
def Servers.filter (f : Server → Bool) (c : Servers) : Servers :=
  ⟨c.servers.filter f⟩

/-- `Servers::perfect_server` (`src/servers.rs` lines 246–252):
`self.servers.get(0)`, cloned. -/
def Servers.perfect_server (c : Servers) : Option Server :=
  c.servers.head?

/-- The domains of a catalog, in catalog order. -/
def Servers.domains (c : Servers) : List String :=
  c.servers.map Server.domain

/-- `Servers::sort` (`src/servers.rs` lines 310–313):
`sort_unstable_by(|x, y| sorter.sort(x, y))`.  Rust's comparison sort is
embedded as insertion sort over the relation "sorter does not say greater";
`sort_unstable_by` guarantees exactly an ordering of the same elements that
is sorted for the comparator, which insertion sort provides. -/
def Servers.sort (sorter : Server → Server → Ordering) (c : Servers) : Servers :=
  ⟨c.servers.insertionSort (fun a b => sorter a b ≠ Ordering.gt)⟩

/-- `LoadSorter::sort` (`src/sorters.rs` lines 44–48): `a.load.cmp(&b.load)`. -/
def LoadSorter.sort (a b : Server) : Ordering :=
  compare a.load b.load

/-- First-match lookup in an association list; the embedding of
`HashMap::get`. -/
def alookup : List (String × Nat) → String → Option Nat
  | [], _ => none
  | (k, v) :: rest, key => if k = key then some v else alookup rest key

/-- Overwrite-or-append insertion; the embedding of `HashMap::insert`. -/
def ainsert : List (String × Nat) → String → Nat → List (String × Nat)
  | [], k, v => [(k, v)]
  | (k0, v0) :: rest, k, v =>
      if k0 = k then (k0, v) :: rest else (k0, v0) :: ainsert rest k v

/-- `PingSorter` (`src/sorters.rs` lines 61–64): the per-domain latency map. -/
structure PingSorter where
  ping_results : List (String × Nat)
deriving DecidableEq, Repr

/-- One round of `PingSorter::ping_single`'s accumulation loop
(`src/sorters.rs` lines 86–92): for each `(hostname, latency)` result of the
round, `ping_results.insert(hostname, get(hostname).unwrap_or(0) + latency)`.
The probe primitive is external; a round's results are given as a list of
`(hostname, latency-in-microseconds)` pairs, the microseconds being the
source's `(result.latency_ms * 1000f64) as usize`. -/
def pingRound (m : List (String × Nat)) (results : List (String × Nat)) :
    List (String × Nat) :=
  results.foldl (fun acc r => ainsert acc r.1 ((alookup acc r.1).getD 0 + r.2)) m

/-- `PingSorter::ping_single` (`src/sorters.rs` lines 73–102): fold the
`tries` rounds over an empty map, then divide every accumulated sum by
`tries`.  The rounds' probe results are the external input. -/
def PingSorter.ping_single (rounds : List (List (String × Nat))) (tries : Nat) :
    PingSorter :=
  ⟨(rounds.foldl pingRound []).map (fun p => (p.1, p.2 / tries))⟩

/-- `PingSorter::sort` (`src/sorters.rs` lines 128–139).  The two `.expect`
calls panic when a domain is missing from the map; the panic is embedded as
`none`, and a successful comparison as `some`. -/
def PingSorter.sort (ps : PingSorter) (a b : Server) : Option Ordering :=
  match alookup ps.ping_results a.domain, alookup ps.ping_results b.domain with
  | some la, some lb => some (compare la lb)
  | _, _ => none

/-- `Region` (`src/filters/region.rs` lines 5–23). -/
inductive Region where
  | EuropeanUnion
  | EuropeanEconomicArea
  | Benelux
  | FiveEyes
  | SixEyes
  | NineEyes
  | FourteenEyes
deriving DecidableEq, Repr

/-- `Region::from_str` (`src/filters/region.rs` lines 30–41). -/
def Region.from_str (region_short : String) : Option Region :=
  match region_short with
  | "EU" | "ЕЮ" => some Region.EuropeanUnion
  | "EEA" => some Region.EuropeanEconomicArea
  | "BENELUX" => some Region.Benelux
  | "5E" => some Region.FiveEyes
  | "6E" => some Region.SixEyes
  | "9E" => some Region.NineEyes
  | "14E" => some Region.FourteenEyes
  | _ => none

/-- `Region::from_str_options` (`src/filters/region.rs` lines 47–58). -/
def Region.from_str_options : List (String × String) :=
  [("EU", "The European Union"),
   ("ЕЮ", "The European Union (Cyrillic notation)"),
   ("EEA", "The European Economic Area"),
   ("BENELUX", "Countries of the Benelux"),
   ("5E", "Countries involved in the Five Eyes programme."),
   ("6E", "Countries involved in the Six Eyes programme."),
   ("9E", "Countries involved in the Nine Eyes programme."),
   ("14E", "Countries involved in the Fourteen Eyes programme.")]

/-- `Region::countries` (`src/filters/region.rs` lines 73–92). -/
def Region.countries : Region → List String
  | Region.EuropeanEconomicArea =>
      ["AT", "BE", "BG", "HR", "CY", "CZ", "DK", "EE", "FI", "FR", "DE", "GR",
       "HU", "IE", "IT", "LV", "LT", "LU", "MT", "NL", "PL", "PT", "RO", "SK",
       "SI", "ES", "SE", "NO", "LI", "IS"]
  | Region.EuropeanUnion =>
      ["AT", "BE", "BG", "HR", "CY", "CZ", "DK", "EE", "FI", "FR", "DE", "GR",
       "HU", "IE", "IT", "LV", "LT", "LU", "MT", "NL", "PL", "PT", "RO", "SK",
       "SI", "ES", "SE"]
  | Region.Benelux => ["BE", "LU", "NL"]
  | Region.FiveEyes => ["AU", "CA", "NZ", "GB", "US"]
  | Region.SixEyes => ["AU", "CA", "FR", "NZ", "GB", "US"]
  | Region.NineEyes => ["AU", "CA", "DK", "FR", "NL", "NO", "NZ", "GB", "US"]
  | Region.FourteenEyes =>
      ["AU", "BE", "CA", "DE", "DK", "ES", "FR", "IT", "NL", "NO", "NZ", "GB",
       "SE", "US"]

/-- `parse_static_filter` (`src/cli_help/parse_static_filter.rs` lines 5–39):
the token-to-filter table.  The returned boxed filter is embedded as a
predicate, and the `bool` is `is_category_filter`. -/
def parse_static_filter (filter : String) : Option ((Server → Bool) × Bool) :=
  match filter with
  | "p2p" => some (fun s => CategoryFilter.filter ⟨ServerCategory.P2P⟩ s, true)
  | "standard" => some (fun s => CategoryFilter.filter ⟨ServerCategory.Standard⟩ s, true)
  | "double" => some (fun s => CategoryFilter.filter ⟨ServerCategory.Double⟩ s, true)
  | "dedicated" => some (fun s => CategoryFilter.filter ⟨ServerCategory.Dedicated⟩ s, true)
  | "tor" => some (fun s => CategoryFilter.filter ⟨ServerCategory.Tor⟩ s, true)
  | "obfuscated" => some (fun s => CategoryFilter.filter ⟨ServerCategory.Obfuscated⟩ s, true)
  | "tcp" => some (fun s => ProtocolFilter.filter ⟨Protocol.Tcp⟩ s, false)
  | "udp" => some (fun s => ProtocolFilter.filter ⟨Protocol.Udp⟩ s, false)
  | "pptp" => some (fun s => ProtocolFilter.filter ⟨Protocol.Pptp⟩ s, false)
  | "l2tp" => some (fun s => ProtocolFilter.filter ⟨Protocol.L2tp⟩ s, false)
  | "tcp_xor" => some (fun s => ProtocolFilter.filter ⟨Protocol.OpenVPNXTcp⟩ s, false)
  | "udp_xor" => some (fun s => ProtocolFilter.filter ⟨Protocol.OpenVPNXUdp⟩ s, false)
  | "socks" => some (fun s => ProtocolFilter.filter ⟨Protocol.Socks⟩ s, false)
  | "cybersecproxy" => some (fun s => ProtocolFilter.filter ⟨Protocol.CyberSecProxy⟩ s, false)
  | "sslproxy" => some (fun s => ProtocolFilter.filter ⟨Protocol.SslProxy⟩ s, false)
  | "cybersecsslproxy" => some (fun s => ProtocolFilter.filter ⟨Protocol.CyberSecSslProxy⟩ s, false)
  | "proxy" => some (fun s => ProtocolFilter.filter ⟨Protocol.Proxy⟩ s, false)
  | "wg_udp" => some (fun s => ProtocolFilter.filter ⟨Protocol.WireGuardUdp⟩ s, false)
  | _ => none

/-- A concrete feature record with every flag off, for concrete servers. -/
def noFeatures : Features :=
  ⟨false, false, false, false, false, false, false, false, false, false,
   false, false, false⟩

/-- A concrete sample server, used for counterexamples and witnesses. -/
def sampleServer : Server :=
  { flag := "US", domain := "us1.nordvpn.com", load := 10,
    categories := [ServerCategory.Standard], features := noFeatures }

/-- A second concrete sample server. -/
def sampleServer2 : Server :=
  { flag := "US", domain := "us2.nordvpn.com", load := 50,
    categories := [ServerCategory.Standard], features := noFeatures }

/-- A third concrete sample server. -/
def sampleServer3 : Server :=
  { flag := "BE", domain := "be1.nordvpn.com", load := 5,
    categories := [ServerCategory.P2P], features := noFeatures }

/-- A concrete three-server catalog. -/
def sampleCatalog : Servers :=
  ⟨[sampleServer, sampleServer2, sampleServer3]⟩

/-- A server record with the xor-obfuscation feature flags overridden; used to
express that a filter never consults those flags. -/
def setXorFlags (s : Server) (t u : Bool) : Server :=
  { s with features :=
      { s.features with openvpn_xor_tcp := t, openvpn_xor_udp := u } }

/-- Boolean equality on `Ordering` agrees with propositional equality. -/
theorem ordering_beq_iff (x y : Ordering) : (x == y) = true ↔ x = y := by
  cases x <;> cases y <;> decide

/-- Boolean disequality on `Ordering` agrees with propositional
disequality. -/
theorem ordering_bne_iff (x y : Ordering) : (x != y) = true ↔ x ≠ y := by
  cases x <;> cases y <;> decide

/-- Falsity of boolean equality on `Ordering` agrees with propositional
disequality. -/
theorem ordering_beq_false_iff (x y : Ordering) : (x == y) = false ↔ x ≠ y := by
  cases x <;> cases y <;> decide

/-- Falsity of boolean disequality on `Ordering` agrees with propositional
equality. -/
theorem ordering_bne_false_iff (x y : Ordering) : (x != y) = false ↔ x = y := by
  cases x <;> cases y <;> decide

/-- The head of a filtered list exists exactly when some element satisfies
the predicate. -/
theorem filter_head_isSome {α : Type} (p : α → Bool) (l : List α) :
    ((l.filter p).head?).isSome = l.any p := by
  induction l with
  | nil => rfl
  | cons x xs ih =>
    cases h : p x
    · rw [List.filter_cons_of_neg (by simp [h]), List.any_cons, h,
        Bool.false_or]
      exact ih
    · rw [List.filter_cons_of_pos h, List.any_cons, h, Bool.true_or]
      rfl

/-- `CombinedFilter::filter` is extensionally the boolean OR of its member
filters (the `.filter(..).next().is_some()` chain asks for the existence of an
accepting member). -/
theorem combined_filter_eq_any (cf : CombinedFilter) (s : Server) :
    CombinedFilter.filter cf s = cf.filters.any (fun f => f s) :=
  filter_head_isSome _ cf.filters

/-- C1: the claim says `CombinedFilter` has AND semantics.  The code instead
implements OR: a combined filter made of one accepting and one rejecting
filter accepts the sample server even though not every member filter
accepts it. -/
theorem combined_filter_not_and :
    CombinedFilter.filter ⟨[fun _ => true, fun _ => false]⟩ sampleServer = true
    ∧ (([fun _ => true, fun _ => false] : List (Server → Bool)).all
        (fun f => f sampleServer)) = false :=
  ⟨rfl, rfl⟩

/-- `WhiteListFilter::filter` from `src/filters/list.rs` accepts exactly the
servers whose domain is in the list. -/
theorem whitelist_filter_spec (L : List String) (s : Server) :
    FilterList.WhiteListFilter.filter ⟨L⟩ s = true ↔ s.domain ∈ L := by
  simp [FilterList.WhiteListFilter.filter]

/-- `BlackListFilter::filter` from `src/filters/list.rs` accepts exactly the
servers whose domain is not in the list. -/
theorem blacklist_list_filter_spec (L : List String) (s : Server) :
    FilterList.BlackListFilter.filter ⟨L⟩ s = true ↔ s.domain ∉ L := by
  simp [FilterList.BlackListFilter.filter]

/-- C2: the claim says a blacklist filter accepts a server iff its domain is
NOT a member of the list.  The `src/filters/blacklist.rs` generation (marked
`TODO: implement`) does the opposite: it accepts the sample server although
the sample server's domain is on the blacklist. -/
theorem blacklist_filter_not_negated :
    FilterBlacklist.BlackListFilter.filter ⟨["us1.nordvpn.com"]⟩ sampleServer
      = true
    ∧ sampleServer.domain ∈ ["us1.nordvpn.com"] :=
  ⟨by decide, by decide⟩

/-- C3: the single-threshold load filter (`src/filters.rs`) accepts exactly
`load ≤ k` (inclusive), the range load filter (`src/filters/load.rs`) accepts
exactly `lo < load < hi` (exclusive at both ends); a server at `load = lo` or
`load = hi` is rejected by the range filter while a server at `load = k` is
accepted by the single-threshold filter. -/
theorem load_filter_bounds (k lo hi : Nat) (s : Server) :
    (FiltersRs.LoadFilter.filter ⟨k⟩ s = true ↔ s.load ≤ k)
    ∧ (LoadFilter.filter ⟨lo, hi⟩ s = true ↔ lo < s.load ∧ s.load < hi)
    ∧ (s.load = lo → LoadFilter.filter ⟨lo, hi⟩ s = false)
    ∧ (s.load = hi → LoadFilter.filter ⟨lo, hi⟩ s = false)
    ∧ (s.load = k → FiltersRs.LoadFilter.filter ⟨k⟩ s = true) := by
  refine ⟨?_, ?_, ?_, ?_, ?_⟩ <;>
    simp [FiltersRs.LoadFilter.filter, LoadFilter.filter, ordering_beq_iff,
      ordering_bne_iff, ordering_beq_false_iff, ordering_bne_false_iff,
      Nat.compare_eq_gt, Nat.compare_eq_lt] <;>
    omega

/-- Closed witness for `load_filter_bounds` at `k = 10`, `lo = 5`, `hi = 10`
and the sample server of load `10`. -/
theorem load_filter_bounds_witness :
    LoadFilter.filter ⟨5, 10⟩ sampleServer = false
    ∧ FiltersRs.LoadFilter.filter ⟨10⟩ sampleServer = true :=
  ⟨(load_filter_bounds 10 5 10 sampleServer).2.2.2.1 rfl,
   (load_filter_bounds 10 5 10 sampleServer).2.2.2.2 rfl⟩

/-- C4: the protocol filters for the XOR-obfuscated OpenVPN variants test the
plain OpenVPN feature flags, the filters reached from the `tcp_xor`/`udp_xor`
tokens agree extensionally with those for `tcp`/`udp`, and no protocol filter
consults the `openvpn_xor_tcp`/`openvpn_xor_udp` flags. -/
theorem protocol_xor_aliases (s : Server) :
    (ProtocolFilter.filter ⟨Protocol.OpenVPNXTcp⟩ s = s.features.openvpn_tcp)
    ∧ (ProtocolFilter.filter ⟨Protocol.OpenVPNXUdp⟩ s = s.features.openvpn_udp)
    ∧ ((parse_static_filter "tcp_xor").map (fun q => q.1 s)
        = (parse_static_filter "tcp").map (fun q => q.1 s))
    ∧ ((parse_static_filter "udp_xor").map (fun q => q.1 s)
        = (parse_static_filter "udp").map (fun q => q.1 s))
    ∧ (∀ p : Protocol, ∀ t u : Bool,
        ProtocolFilter.filter ⟨p⟩ (setXorFlags s t u)
          = ProtocolFilter.filter ⟨p⟩ s) := by
  refine ⟨rfl, rfl, rfl, rfl, ?_⟩
  intro p t u
  cases p <;> rfl

/-- C5: the latency comparator fails (embedded as `none`) exactly when one of
the two domains is missing from the latency map, and when both are present it
returns the integer comparison of the stored latencies. -/
theorem ping_sorter_sort_spec (m : List (String × Nat)) (a b : Server) :
    (PingSorter.sort ⟨m⟩ a b = none ↔
      alookup m a.domain = none ∨ alookup m b.domain = none)
    ∧ (∀ la lb, alookup m a.domain = some la → alookup m b.domain = some lb →
        PingSorter.sort ⟨m⟩ a b = some (compare la lb)) := by
  unfold PingSorter.sort
  constructor
  · cases ha : alookup m a.domain <;> cases hb : alookup m b.domain <;> simp
  · intro la lb ha hb
    rw [show (PingSorter.mk m).ping_results = m from rfl, ha, hb]

/-- Closed witness for `ping_sorter_sort_spec` on a concrete two-entry map. -/
theorem ping_sorter_sort_witness :
    PingSorter.sort ⟨[("us1.nordvpn.com", 20), ("us2.nordvpn.com", 40)]⟩
        sampleServer sampleServer2 = some (compare 20 40) :=
  (ping_sorter_sort_spec [("us1.nordvpn.com", 20), ("us2.nordvpn.com", 40)]
      sampleServer sampleServer2).2 20 40 (by decide) (by decide)

/-- C7: applying a filter to a catalog keeps exactly the accepted records,
preserves their relative order (the result is a sublist), duplicates nothing
(counts are preserved or zeroed), and is idempotent. -/
theorem servers_filter_spec (P : Server → Bool) (C : Servers) :
    ((Servers.filter P C).servers.Sublist C.servers)
    ∧ (∀ s, s ∈ (Servers.filter P C).servers ↔ s ∈ C.servers ∧ P s = true)
    ∧ (∀ s, (Servers.filter P C).servers.count s
        = if P s then C.servers.count s else 0)
    ∧ Servers.filter P (Servers.filter P C) = Servers.filter P C := by
  refine ⟨List.filter_sublist _, fun s => List.mem_filter, fun s => ?_, ?_⟩
  · by_cases h : P s
    · simp [Servers.filter, List.count_filter, h]
    · have : s ∉ (Servers.filter P C).servers := by
        simp [Servers.filter, List.mem_filter, h]
      simp [List.count_eq_zero_of_not_mem this, h]
  · unfold Servers.filter
    congr 1
    rw [List.filter_filter]
    simp

/-- C10: every region code enumerated by `Region::from_str_options` is
accepted by `Region::from_str`, and the resulting region has a non-empty
country list. -/
theorem region_roundtrip :
    ∀ p ∈ Region.from_str_options,
      ∃ r, Region.from_str p.1 = some r ∧ r.countries ≠ [] := by
  intro p hp
  fin_cases hp <;> exact ⟨_, rfl, by decide⟩

/-- Closed witness for `region_roundtrip` at the code `"EU"`. -/
theorem region_roundtrip_witness :
    ∃ r, Region.from_str "EU" = some r ∧ r.countries ≠ [] :=
  region_roundtrip ("EU", "The European Union") (by decide)

/-- C9: when the catalog's domains are distinct (the documented catalog
invariant), the domains surviving the negated filter and the domains
surviving the filter are disjoint and together are exactly the catalog's
domains; the negating filter accepts exactly when the wrapped filter
rejects. -/
theorem negation_partition (P : Server → Bool) (C : Servers)
    (h : C.domains.Nodup) :
    (∀ d, d ∈ (Servers.filter (NegatingFilter.filter ⟨P⟩) C).domains →
        d ∉ (Servers.filter P C).domains)
    ∧ (∀ d, d ∈ C.domains ↔
        d ∈ (Servers.filter P C).domains
          ∨ d ∈ (Servers.filter (NegatingFilter.filter ⟨P⟩) C).domains)
    ∧ (∀ s, NegatingFilter.filter ⟨P⟩ s = !(P s)) := by
  refine ⟨?_, ?_, fun s => rfl⟩
  · intro d hdneg hdpos
    simp only [Servers.domains, Servers.filter, List.mem_map,
      List.mem_filter] at hdneg hdpos
    obtain ⟨t, ⟨htmem, htneg⟩, htd⟩ := hdneg
    obtain ⟨u, ⟨humem, hupos⟩, hud⟩ := hdpos
    have hut : u = t :=
      List.inj_on_of_nodup_map h humem htmem (hud.trans htd.symm)
    rw [hut] at hupos
    simp [NegatingFilter.filter, hupos] at htneg
  · intro d
    constructor
    · intro hd
      simp only [Servers.domains, List.mem_map] at hd
      obtain ⟨s, hsmem, hsd⟩ := hd
      cases hP : P s
      · right
        simp only [Servers.domains, Servers.filter, List.mem_map,
          List.mem_filter]
        exact ⟨s, ⟨hsmem, by simp [NegatingFilter.filter, hP]⟩, hsd⟩
      · left
        simp only [Servers.domains, Servers.filter, List.mem_map,
          List.mem_filter]
        exact ⟨s, ⟨hsmem, hP⟩, hsd⟩
    · intro hd
      rcases hd with hd | hd <;>
      · simp only [Servers.domains, Servers.filter, List.mem_map,
          List.mem_filter] at hd ⊢
        obtain ⟨s, ⟨hsmem, _⟩, hsd⟩ := hd
        exact ⟨s, hsmem, hsd⟩

/-- Closed witness for `negation_partition`: the union law instantiated on
the sample catalog with a country predicate, at the domain of the Belgian
server. -/
theorem negation_partition_witness :
    "be1.nordvpn.com" ∈ sampleCatalog.domains ↔
      "be1.nordvpn.com"
          ∈ (Servers.filter (fun s => s.flag == "US") sampleCatalog).domains
        ∨ "be1.nordvpn.com"
          ∈ (Servers.filter
              (NegatingFilter.filter ⟨fun s => s.flag == "US"⟩)
              sampleCatalog).domains :=
  ((negation_partition (fun s => s.flag == "US") sampleCatalog
      (by decide)).2.1) "be1.nordvpn.com"

/-- C8: sorting with a comparator that is a strict weak ordering (stated via
its non-strict companion being total and transitive) permutes the catalog and
puts at index 0 — the record `perfect_server` returns — a record that the
comparator places less than or equal to every record of the sorted catalog;
`perfect_server` of an empty catalog is `none`. -/
theorem servers_sort_spec (S : Server → Server → Ordering)
    (htrans : ∀ a b c : Server,
      S a b ≠ Ordering.gt → S b c ≠ Ordering.gt → S a c ≠ Ordering.gt)
    (htot : ∀ a b : Server, S a b ≠ Ordering.gt ∨ S b a ≠ Ordering.gt)
    (C : Servers) :
    ((Servers.sort S C).servers.Perm C.servers)
    ∧ (∀ a, (Servers.sort S C).perfect_server = some a →
        ∀ b ∈ (Servers.sort S C).servers, S a b ≠ Ordering.gt)
    ∧ (Servers.perfect_server ⟨[]⟩ = none) := by
  haveI : IsTotal Server (fun a b => S a b ≠ Ordering.gt) := ⟨htot⟩
  haveI : IsTrans Server (fun a b => S a b ≠ Ordering.gt) :=
    ⟨fun a b c => htrans a b c⟩
  refine ⟨List.perm_insertionSort _ _, ?_, rfl⟩
  intro a ha b hb
  have hs : List.Sorted (fun a b => S a b ≠ Ordering.gt)
      ((Servers.sort S C).servers) := List.sorted_insertionSort _ _
  rcases hL : (Servers.sort S C).servers with _ | ⟨x, xs⟩
  · rw [Servers.perfect_server, hL] at ha
    exact absurd ha (by simp)
  · have hax : a = x := by
      rw [Servers.perfect_server, hL] at ha
      simpa using ha.symm
    rw [hL] at hs hb
    subst hax
    rcases List.mem_cons.mp hb with hba | hbx
    · rw [hba]
      rcases htot a a with hh | hh <;> exact hh
    · exact List.rel_of_sorted_cons hs b hbx

/-- The total latency recorded for key `h` in a single probe round. -/
def sumValues (r : List (String × Nat)) (h : String) : Nat :=
  ((r.filter (fun p => decide (p.1 = h))).map Prod.snd).sum

/-- The probe results of the spec's concrete scenario: three rounds over two
hosts, host A measuring 10, 20, 30 µs and host B measuring 40, 40, 40 µs. -/
def demoRounds : List (List (String × Nat)) :=
  [[("us1.nordvpn.com", 10), ("us2.nordvpn.com", 40)],
   [("us1.nordvpn.com", 20), ("us2.nordvpn.com", 40)],
   [("us1.nordvpn.com", 30), ("us2.nordvpn.com", 40)]]

theorem alookup_ainsert (m : List (String × Nat)) (k h : String) (v : Nat) :
    alookup (ainsert m k v) h = if k = h then some v else alookup m h := by
  induction m with
  | nil => simp [ainsert, alookup]
  | cons p rest ih =>
    obtain ⟨k0, v0⟩ := p
    by_cases hk0k : k0 = k <;> by_cases hkh : k = h <;>
      simp_all [ainsert, alookup]

theorem sumValues_zero_of_not_mem (r : List (String × Nat)) (h : String) :
    h ∉ r.map Prod.fst → sumValues r h = 0 := by
  induction r with
  | nil => intro _; rfl
  | cons p rest ih =>
    intro hmem
    obtain ⟨k, v⟩ := p
    have hk : k ≠ h := fun he => hmem (by simp [he])
    have hrest : h ∉ rest.map Prod.fst := fun he => hmem (by simp [he])
    have := ih hrest
    simp only [sumValues] at this ⊢
    rw [List.filter_cons_of_neg (by simpa using hk)]
    exact this

theorem sumValues_cons_pos (k : String) (v : Nat)
    (rest : List (String × Nat)) :
    sumValues ((k, v) :: rest) k = v + sumValues rest k := by
  simp [sumValues, List.filter_cons]

theorem sumValues_cons_neg (k h : String) (v : Nat)
    (rest : List (String × Nat)) (hkh : k ≠ h) :
    sumValues ((k, v) :: rest) h = sumValues rest h := by
  simp [sumValues, List.filter_cons, hkh]

theorem alookup_pingRound (r : List (String × Nat))
    (m : List (String × Nat)) (h : String) :
    alookup (pingRound m r) h =
      if h ∈ r.map Prod.fst then some ((alookup m h).getD 0 + sumValues r h)
      else alookup m h := by
  induction r generalizing m with
  | nil => simp [pingRound, sumValues]
  | cons p rest ih =>
    obtain ⟨k, v⟩ := p
    have hstep : pingRound m ((k, v) :: rest)
        = pingRound (ainsert m k ((alookup m k).getD 0 + v)) rest := rfl
    rw [hstep, ih]
    by_cases hkh : k = h
    · subst hkh
      rw [alookup_ainsert, if_pos rfl]
      have hfst : ((k, v) :: rest).map Prod.fst = k :: rest.map Prod.fst := rfl
      rw [hfst, sumValues_cons_pos]
      by_cases hmem : k ∈ rest.map Prod.fst
      · rw [if_pos hmem, if_pos (List.mem_cons_self k _)]
        simp
        omega
      · rw [if_neg hmem, if_pos (List.mem_cons_self k _),
          sumValues_zero_of_not_mem rest k hmem]
        simp
    · rw [alookup_ainsert, if_neg hkh]
      have hfst : ((k, v) :: rest).map Prod.fst = k :: rest.map Prod.fst := rfl
      rw [hfst, sumValues_cons_neg k h v rest hkh]
      have hiff : h ∈ k :: rest.map Prod.fst ↔ h ∈ rest.map Prod.fst := by
        constructor
        · intro hmem
          rcases List.mem_cons.mp hmem with he | he
          · exact absurd he.symm hkh
          · exact he
        · exact fun hmem => List.mem_cons_of_mem _ hmem
      by_cases hmem : h ∈ rest.map Prod.fst
      · rw [if_pos hmem, if_pos (hiff.mpr hmem)]
      · rw [if_neg hmem, if_neg (fun hc => hmem (hiff.mp hc))]

theorem alookup_foldl_pingRound (rounds : List (List (String × Nat)))
    (m : List (String × Nat)) (h : String) (g : Nat)
    (hmem : ∀ r ∈ rounds, h ∈ r.map Prod.fst)
    (hg : alookup m h = some g) :
    alookup (rounds.foldl pingRound m) h
      = some (g + (rounds.map (fun r => sumValues r h)).sum) := by
  induction rounds generalizing m g with
  | nil => simpa using hg
  | cons r rest ih =>
    have hr : alookup (pingRound m r) h = some (g + sumValues r h) := by
      rw [alookup_pingRound, if_pos (hmem r (List.mem_cons_self r rest)), hg]
      rfl
    have := ih (pingRound m r) (g + sumValues r h)
      (fun r2 hr2 => hmem r2 (List.mem_cons_of_mem r hr2)) hr
    rw [List.foldl_cons, this]
    simp [Nat.add_assoc]

theorem keyMem_of_count (r : List (String × Nat)) (h : String)
    (hc : (r.filter (fun p => decide (p.1 = h))).length = 1) :
    h ∈ r.map Prod.fst := by
  have hne : r.filter (fun p => decide (p.1 = h)) ≠ [] := by
    intro he
    rw [he] at hc
    simp at hc
  obtain ⟨p, hp⟩ := List.exists_mem_of_ne_nil _ hne
  have := List.mem_filter.mp hp
  exact List.mem_map.mpr ⟨p, this.1, by simpa using this.2⟩

theorem sumValues_eq_alookup (r : List (String × Nat)) (h : String)
    (hc : (r.filter (fun p => decide (p.1 = h))).length = 1) :
    sumValues r h = (alookup r h).getD 0 := by
  induction r with
  | nil => simp at hc
  | cons p rest ih =>
    obtain ⟨k, v⟩ := p
    by_cases hkh : k = h
    · subst hkh
      rw [List.filter_cons_of_pos (by simp)] at hc
      have hrest0 : (rest.filter (fun p => decide (p.1 = k))).length = 0 := by
        simpa using hc
      have hrestnil : rest.filter (fun p => decide (p.1 = k)) = [] :=
        List.length_eq_zero.mp hrest0
      have hnomem : k ∉ rest.map Prod.fst := by
        intro hmem
        obtain ⟨q, hq, hqk⟩ := List.mem_map.mp hmem
        have : q ∈ rest.filter (fun p => decide (p.1 = k)) :=
          List.mem_filter.mpr ⟨hq, by simpa using hqk⟩
        rw [hrestnil] at this
        simp at this
      have := sumValues_zero_of_not_mem rest k hnomem
      simp [sumValues, List.filter_cons, alookup] at this ⊢
      exact this
    · rw [List.filter_cons_of_neg (by simpa using hkh)] at hc
      have := ih hc
      simpa [sumValues, List.filter_cons, hkh, alookup] using this

theorem alookup_map_div (l : List (String × Nat)) (h : String) (t : Nat) :
    alookup (l.map (fun p => (p.1, p.2 / t))) h
      = (alookup l h).map (fun v => v / t) := by
  induction l with
  | nil => rfl
  | cons p rest ih =>
    obtain ⟨k, v⟩ := p
    by_cases hkh : k = h <;> simp [alookup, hkh, ih]

/-- C6: for the batched-concurrent strategy, when there are `tries` rounds
and every round reports the probed host exactly once, the final stored value
for that host is the sum of its per-round latencies divided by `tries`; on
the spec's concrete scenario the resulting map is `{A: 20, B: 40}` and the
latency comparator orders A before B. -/
theorem ping_single_mean (rounds : List (List (String × Nat))) (tries : Nat)
    (hst : String) (hlen : rounds.length = tries) (htries : 0 < tries)
    (hcount : ∀ r ∈ rounds,
      (r.filter (fun p => decide (p.1 = hst))).length = 1) :
    alookup (PingSorter.ping_single rounds tries).ping_results hst
      = some ((rounds.map (fun r => (alookup r hst).getD 0)).sum / tries)
    ∧ PingSorter.ping_single demoRounds 3
        = ⟨[("us1.nordvpn.com", 20), ("us2.nordvpn.com", 40)]⟩
    ∧ PingSorter.sort (PingSorter.ping_single demoRounds 3)
        sampleServer sampleServer2 = some Ordering.lt := by
  refine ⟨?_, by decide, by decide⟩
  rcases rounds with _ | ⟨r0, rest⟩
  · rw [List.length_nil] at hlen
    omega
  · have hmem0 : hst ∈ r0.map Prod.fst :=
      keyMem_of_count r0 hst (hcount r0 (List.mem_cons_self r0 rest))
    have h0 : alookup (pingRound [] r0) hst = some (sumValues r0 hst) := by
      rw [alookup_pingRound, if_pos hmem0]
      simp [alookup]
    have hfold := alookup_foldl_pingRound rest (pingRound [] r0) hst
      (sumValues r0 hst)
      (fun r hr => keyMem_of_count r hst (hcount r (List.mem_cons_of_mem r0 hr)))
      h0
    have hmapcong : ∀ r ∈ r0 :: rest,
        sumValues r hst = (alookup r hst).getD 0 :=
      fun r hr => sumValues_eq_alookup r hst (hcount r hr)
    have hfoldall : ((r0 :: rest).foldl pingRound [])
        = rest.foldl pingRound (pingRound [] r0) := rfl
    have hsum : sumValues r0 hst + (rest.map (fun r => sumValues r hst)).sum
        = ((r0 :: rest).map (fun r => (alookup r hst).getD 0)).sum := by
      rw [List.map_cons, List.sum_cons,
        hmapcong r0 (List.mem_cons_self r0 rest)]
      congr 1
      refine congrArg List.sum ?_
      exact List.map_congr_left
        (fun r hr => hmapcong r (List.mem_cons_of_mem r0 hr))
    simp only [PingSorter.ping_single]
    rw [alookup_map_div, hfoldall, hfold, hsum]
    rfl

/-- Closed witness for `ping_single_mean`: the general mean property applied
to the concrete three-round scenario at host A. -/
theorem ping_single_mean_witness :
    alookup (PingSorter.ping_single demoRounds 3).ping_results
        "us1.nordvpn.com"
      = some ((demoRounds.map
          (fun r => (alookup r "us1.nordvpn.com").getD 0)).sum / 3) :=
  (ping_single_mean demoRounds 3 "us1.nordvpn.com" rfl (by decide)
    (by decide)).1

/-- Closed witness for `servers_sort_spec`: the load comparator is total and
transitive, and sorting the sample catalog by load permutes it. -/
theorem servers_sort_spec_witness :
    (Servers.sort LoadSorter.sort sampleCatalog).servers.Perm
      sampleCatalog.servers :=
  (servers_sort_spec LoadSorter.sort
    (by
      intro a b c hab hbc
      simp only [LoadSorter.sort, ne_eq, Nat.compare_eq_gt] at hab hbc ⊢
      omega)
    (by
      intro a b
      simp only [LoadSorter.sort, ne_eq, Nat.compare_eq_gt]
      omega)
    sampleCatalog).1
